import Mathlib

/-!
Verification of the kj-pintos thread/synchronization core against its
natural-language specification.

The development shallowly embeds the relevant parts of
`src/pintos/threads/synch.c` and `src/pintos/devices/timer.c`.
Helpers that live in `threads/thread.c` (which is not among the sources:
`compare_priority`, `thread_unblock`, `thread_yield`, `should_preempt`,
`thread_sleep`, `thread_wakeup`, `thread_tick`, the `ready_list`) are
modelled from the spec, as marked in their doc comments.

Threads and locks are identified by natural numbers.  Machine integers
(`int64_t` ticks) are modelled as `Int`; the 64-bit wraparound is
irrelevant over device lifetime, as the spec itself notes (§4.B).
-/

namespace Pintos

/-- Pintos `list_insert_ordered` (lib/kernel/list.c), specialised to thread
queues ordered by the strict descending-priority comparator
`compare_priority`: the element is inserted before the first element whose
priority is strictly smaller, i.e. after all elements of
greater-or-equal priority (FIFO among equal priorities). -/
def list_insert_ordered (prio : Nat → Nat) (e : Nat) : List Nat → List Nat
  | [] => [e]
  | x :: xs => if prio e > prio x then e :: x :: xs else x :: list_insert_ordered prio e xs

/-- Insertion step of the stable sort: the element is placed before the
first element that is not strictly greater, so elements already placed
keep their relative order on ties. -/
def sortInsert (prio : Nat → Nat) (e : Nat) : List Nat → List Nat
  | [] => [e]
  | x :: xs => if prio x > prio e then x :: sortInsert prio e xs else e :: x :: xs

/-- Pintos `list_sort` (a stable merge sort) under the `compare_priority`
comparator, modelled by a stable insertion sort: both are stable sorts
for the same strict comparator, hence produce the same list. -/
def list_sort (prio : Nat → Nat) : List Nat → List Nat
  | [] => []
  | x :: xs => sortInsert prio x (list_sort prio xs)

theorem mem_list_insert_ordered {prio : Nat → Nat} {e a : Nat} :
    ∀ {l : List Nat}, a ∈ list_insert_ordered prio e l ↔ a = e ∨ a ∈ l
  | [] => by simp [list_insert_ordered]
  | x :: xs => by
    simp only [list_insert_ordered]
    by_cases h : prio e > prio x
    · simp [h]
    · simp only [if_neg h, List.mem_cons, mem_list_insert_ordered (l := xs)]
      tauto

theorem mem_sortInsert {prio : Nat → Nat} {e a : Nat} :
    ∀ {l : List Nat}, a ∈ sortInsert prio e l ↔ a = e ∨ a ∈ l
  | [] => by simp [sortInsert]
  | x :: xs => by
    simp only [sortInsert]
    by_cases h : prio x > prio e
    · simp only [if_pos h, List.mem_cons, mem_sortInsert (l := xs)]
      try tauto
    · simp only [if_neg h, List.mem_cons]
      try tauto

theorem mem_list_sort {prio : Nat → Nat} {a : Nat} :
    ∀ {l : List Nat}, a ∈ list_sort prio l ↔ a ∈ l
  | [] => by simp [list_sort]
  | x :: xs => by
    simp only [list_sort, mem_sortInsert, List.mem_cons, mem_list_sort (l := xs)]

theorem length_sortInsert (prio : Nat → Nat) (e : Nat) :
    ∀ l : List Nat, (sortInsert prio e l).length = l.length + 1
  | [] => rfl
  | x :: xs => by
    simp only [sortInsert]
    by_cases h : prio x > prio e
    · simp [if_pos h, length_sortInsert prio e xs]
    · simp [if_neg h]

theorem length_list_sort (prio : Nat → Nat) :
    ∀ l : List Nat, (list_sort prio l).length = l.length
  | [] => rfl
  | x :: xs => by
    simp [list_sort, length_sortInsert, length_list_sort prio xs]

/-- The head of a thread queue dominates every member (priority-wise). -/
def headMax (prio : Nat → Nat) (l : List Nat) : Prop :=
  ∀ a ∈ l, ∀ h ∈ l.head?, prio a ≤ prio h

theorem headMax_sortInsert {prio : Nat → Nat} {e : Nat} :
    ∀ {l : List Nat}, headMax prio l → headMax prio (sortInsert prio e l)
  | [], _ => by
    intro a ha h hh
    simp [sortInsert] at ha hh
    simp [ha, hh]
  | x :: xs, hmax => by
    intro a ha h hh
    simp only [sortInsert] at ha hh
    by_cases hc : prio x > prio e
    · rw [if_pos hc] at ha hh
      simp only [List.head?_cons, Option.mem_def, Option.some.injEq] at hh
      subst hh
      rcases List.mem_cons.mp ha with rfl | ha'
      · exact le_refl _
      · rcases mem_sortInsert.mp ha' with rfl | ha''
        · exact Nat.le_of_lt hc
        · exact hmax a (List.mem_cons_of_mem _ ha'') x (by simp)
    · rw [if_neg hc] at ha hh
      simp only [List.head?_cons, Option.mem_def, Option.some.injEq] at hh
      subst hh
      rcases List.mem_cons.mp ha with rfl | ha'
      · exact le_refl _
      · rcases List.mem_cons.mp ha' with rfl | ha''
        · exact Nat.le_of_not_lt hc
        · exact Nat.le_trans (hmax a (List.mem_cons_of_mem _ ha'') x (by simp))
            (Nat.le_of_not_lt hc)

theorem headMax_list_sort (prio : Nat → Nat) :
    ∀ l : List Nat, headMax prio (list_sort prio l)
  | [] => by intro a ha; simp [list_sort] at ha
  | x :: xs => headMax_sortInsert (headMax_list_sort prio xs)

/-- Pointwise update of a map; used for the thread table, the lock-holder
table and the semaphore table of the kernel state. -/
def updFn {α : Type} (f : Nat → α) (k : Nat) (v : α) : Nat → α :=
  fun n => if n = k then v else f n

theorem updFn_self {α : Type} (f : Nat → α) (k : Nat) (v : α) : updFn f k v k = v := by
  simp [updFn]

theorem updFn_other {α : Type} {f : Nat → α} {k n : Nat} {v : α} (h : n ≠ k) :
    updFn f k v n = f n := by
  simp [updFn, h]

/-- Thread states, from `threads/thread.h` as described by the spec (§3). -/
inductive Status where
  | RUNNING
  | READY
  | BLOCKED
  | DYING
deriving DecidableEq, Repr

/-- The fields of `struct thread` used by the synchronization core:
`original_priority` is the base priority, `priority` the effective
(donated) priority, `wait_on_lock` the lock the thread is blocked on
(if any), `holding_locks` the list of held locks (lock ids, in
`list_push_back` order). -/
structure ThreadData where
  original_priority : Nat
  priority : Nat
  status : Status
  wait_on_lock : Option Nat
  holding_locks : List Nat
deriving DecidableEq, Repr

/-- One `struct semaphore`: a non-negative value and a waiter queue of
thread ids. -/
structure SemData where
  value : Nat
  waiters : List Nat
deriving DecidableEq, Repr

/-- Kernel state: the running thread, the per-thread table, the
per-lock holder table, the per-lock semaphore table (lock id `l` owns
semaphore `sems l`; standalone semaphores use unclaimed ids), the
ready queue, and whether execution is in interrupt context. -/
structure KState where
  running : Nat
  thr : Nat → ThreadData
  holder : Nat → Option Nat
  sems : Nat → SemData
  ready_list : List Nat
  in_intr : Bool

/-- Effective priority of a thread, the key of every queue comparator. -/
def kprio (st : KState) (t : Nat) : Nat := (st.thr t).priority

/-- Modelled from the spec (§4.C): `compare_priority` lives in
`threads/thread.c`, which is not among the sources; it is the strict
descending comparator on effective priority. -/
def compare_priority (st : KState) (a b : Nat) : Bool :=
  kprio st a > kprio st b

/-- Modelled from the spec (§4.C): `thread_unblock` lives in
`threads/thread.c`, which is not among the sources; it marks the thread
READY and inserts it into the ready queue in priority order.  It does
not preempt on its own. -/
def thread_unblock (st : KState) (t : Nat) : KState :=
  let thr1 := updFn st.thr t { st.thr t with status := Status.READY }
  { st with
    thr := thr1,
    ready_list := list_insert_ordered (fun n => (thr1 n).priority) t st.ready_list }

/-- Modelled from the spec (§4.C): `should_preempt` lives in
`threads/thread.c`, which is not among the sources; it holds iff the
ready queue's head has strictly higher effective priority than the
running thread. -/
def should_preempt (st : KState) : Bool :=
  match st.ready_list with
  | [] => false
  | h :: _ => (st.thr h).priority > (st.thr st.running).priority

/-- Modelled from the spec (§4.C): the dispatcher picks the ready
queue's head as the new running thread. -/
def dispatch (st : KState) (rl : List Nat) : KState :=
  match rl with
  | [] => st
  | h :: rest =>
    { st with
      running := h,
      thr := updFn st.thr h { st.thr h with status := Status.RUNNING },
      ready_list := rest }

/-- Modelled from the spec (§4.C): `thread_yield` lives in
`threads/thread.c`, which is not among the sources; the running thread
is inserted into the ready queue in priority order and the dispatcher
picks the queue's head as the new running thread. -/
def thread_yield (st : KState) : KState :=
  let st1 := { st with
    thr := updFn st.thr st.running { st.thr st.running with status := Status.READY } }
  dispatch st1 (list_insert_ordered (kprio st1) st.running st.ready_list)

/-- Result of `sema_up` (synch.c lines 106-133): the new state, the
thread that was unblocked (if any), and whether the caller yielded the
CPU at the preemption check. -/
structure SemaUpResult where
  st : KState
  woken : Option Nat
  yielded : Bool

/-- Embedding of `sema_up` (synch.c lines 106-133): re-sort the waiter
queue by current effective priority, pop and unblock the head if the
queue is non-empty, increment the value, then check `should_preempt`
and yield if it holds. -/
def sema_up (st : KState) (s : Nat) : SemaUpResult :=
  match list_sort (kprio st) (st.sems s).waiters with
  | [] =>
    let st1 := { st with
      sems := updFn st.sems s { value := (st.sems s).value + 1, waiters := [] } }
    if should_preempt st1 then ⟨thread_yield st1, none, true⟩ else ⟨st1, none, false⟩
  | w :: rest =>
    let st1 := thread_unblock st w
    let st2 := { st1 with
      sems := updFn st1.sems s { value := (st1.sems s).value + 1, waiters := rest } }
    if should_preempt st2 then ⟨thread_yield st2, some w, true⟩ else ⟨st2, some w, false⟩

/-- Outcome of one call to `sema_down` by the running thread: either the
value was positive and has been decremented (`taken`), or the caller
has been enqueued into the waiter queue in priority order and blocked
(`blocked`; the while-loop re-check after wakeup is a later step). -/
inductive DownResult where
  | taken (st : KState)
  | blocked (st : KState)

/-- Embedding of `sema_down` (synch.c lines 60-75).  The
`ASSERT (!intr_context ())` is modelled as the error case. -/
def sema_down (st : KState) (s : Nat) : Except String DownResult :=
  if st.in_intr then Except.error "ASSERT (!intr_context ())" else
  if (st.sems s).value = 0 then
    Except.ok (DownResult.blocked
      { st with
        thr := updFn st.thr st.running { st.thr st.running with status := Status.BLOCKED },
        sems := updFn st.sems s
          { st.sems s with
            waiters := list_insert_ordered (kprio st) st.running (st.sems s).waiters } })
  else
    Except.ok (DownResult.taken
      { st with sems := updFn st.sems s { st.sems s with value := (st.sems s).value - 1 } })

/-- Embedding of `sema_try_down` (synch.c lines 82-100): atomic
test-and-decrement, never blocks, no interrupt-context assertion. -/
def sema_try_down (st : KState) (s : Nat) : KState × Bool :=
  if (st.sems s).value > 0 then
    ({ st with sems := updFn st.sems s { st.sems s with value := (st.sems s).value - 1 } }, true)
  else
    (st, false)

/-- Embedding of `lock_held_by_current_thread` (synch.c lines 354-359). -/
def lock_held_by_current_thread (st : KState) (l : Nat) : Bool :=
  decide (st.holder l = some st.running)

/-- One iteration body of the donation walk (synch.c lines 234-242): if
the target's effective priority is below the acquirer's, raise it to
the acquirer's, and if the target is READY remove and re-insert it into
the ready queue so the queue stays sorted. -/
def donateStep (cur target : Nat) (st : KState) : KState :=
  if (st.thr target).priority < (st.thr cur).priority then
    let stA := { st with
      thr := updFn st.thr target
        { st.thr target with priority := (st.thr cur).priority } }
    if (st.thr target).status = Status.READY then
      { stA with
        ready_list :=
          list_insert_ordered (kprio stA) target (stA.ready_list.erase target) }
    else stA
  else st

/-- The successor on the wait-for chain (synch.c lines 244-248): the
holder of the lock the target waits on, when both exist. -/
def nextTarget (st : KState) (target : Nat) : Option Nat :=
  match (st.thr target).wait_on_lock with
  | some l => st.holder l
  | none => none

/-- The donation walk of `lock_acquire` (synch.c lines 231-249): starting
at the contended lock's holder, run `donateStep` on each target and
follow `target->wait_on_lock->holder` to the chain's end.  The C loop
`while (target)` is given explicit fuel: on a wait-for cycle the C code
never terminates, which no total function can mirror. -/
def donate (cur : Nat) : Nat → KState → Nat → KState
  | 0, st, _ => st
  | fuel + 1, st, target =>
    let st1 := donateStep cur target st
    match nextTarget st1 target with
    | some nxt => donate cur fuel st1 nxt
    | none => st1

/-- The wait-for chain read off a state: the targets the donation walk
of `lock_acquire` visits, starting from a lock holder and following
`wait_on_lock`/`holder`, truncated at the given fuel. -/
def chainList (st : KState) : Nat → Nat → List Nat
  | 0, _ => []
  | fuel + 1, target =>
    target ::
      match nextTarget st target with
      | some nxt => chainList st fuel nxt
      | none => []

/-- The state after `lock_acquire` records the contended lock in the
caller's `wait_on_lock` (synch.c line 228). -/
def acquireWaitState (st : KState) (l : Nat) : KState :=
  { st with
    thr := updFn st.thr st.running
      { st.thr st.running with wait_on_lock := some l } }

/-- Outcome of one call to `lock_acquire`: the lock was free and has been
acquired, or the caller performed donation, enqueued itself on the
lock's semaphore and blocked (the post-wakeup completion, synch.c lines
259-265, runs when the thread is later unblocked and is a later step). -/
inductive AcquireResult where
  | acquired (st : KState)
  | blocked (st : KState)

/-- The post-`sema_down` completion of `lock_acquire` (synch.c lines
259-265): clear `wait_on_lock`, record the caller as holder, append the
lock to the caller's held-lock list. -/
def acquireFinish (st : KState) (l : Nat) : KState :=
  { st with
    thr := updFn st.thr st.running
      { st.thr st.running with
        wait_on_lock := none,
        holding_locks := (st.thr st.running).holding_locks ++ [l] },
    holder := updFn st.holder l (some st.running) }

/-- Embedding of `lock_acquire` (synch.c lines 213-266): assertions, the
donation walk when the lock is held, then `sema_down` on the lock's
semaphore; when the down succeeds immediately the acquisition
completes, otherwise the caller blocks. -/
def lock_acquire (fuel : Nat) (st : KState) (l : Nat) : Except String AcquireResult :=
  if st.in_intr then Except.error "ASSERT (!intr_context ())" else
  if lock_held_by_current_thread st l then
    Except.error "ASSERT (!lock_held_by_current_thread (lock))" else
  let cur := st.running
  let st2 :=
    match st.holder l with
    | some h => donate cur fuel (acquireWaitState st l) h
    | none => st
  match sema_down st2 l with
  | Except.ok (DownResult.taken st3) => Except.ok (AcquireResult.acquired (acquireFinish st3 l))
  | Except.ok (DownResult.blocked st3) => Except.ok (AcquireResult.blocked st3)
  | Except.error e => Except.error e

/-- The state reached by the donation phase of a contended
`lock_acquire`: `wait_on_lock` recorded, then the walk from the
holder. -/
def donatedState (fuel : Nat) (st : KState) (l h : Nat) : KState :=
  donate st.running fuel (acquireWaitState st l) h

/-- The state in which a contended `lock_acquire` blocks: after the
donation phase, `sema_down` enqueues the caller on the lock's
semaphore and marks it BLOCKED. -/
def blockedAcquireState (fuel : Nat) (st : KState) (l h : Nat) : KState :=
  let st2 := donatedState fuel st l h
  { st2 with
    thr := updFn st2.thr st2.running
      { st2.thr st2.running with status := Status.BLOCKED },
    sems := updFn st2.sems l
      { st2.sems l with
        waiters := list_insert_ordered (kprio st2) st2.running (st2.sems l).waiters } }

/-- Embedding of `lock_try_acquire` (synch.c lines 274-285): assert the
caller does not already hold the lock (no interrupt-context assertion),
`sema_try_down`, and on success record the holder.  Nothing else is
touched: no `wait_on_lock`, no donation, no held-lock list update. -/
def lock_try_acquire (st : KState) (l : Nat) : Except String (KState × Bool) :=
  if lock_held_by_current_thread st l then
    Except.error "ASSERT (!lock_held_by_current_thread (lock))" else
  let (st1, success) := sema_try_down st l
  if success then
    Except.ok ({ st1 with holder := updFn st1.holder l (some st.running) }, true)
  else
    Except.ok (st1, false)

/-- The waiter scan of `lock_release` (synch.c lines 320-328): walk a
waiter list keeping the first thread of highest effective priority. -/
def scanHighest (st : KState) : List Nat → Option Nat → Option Nat
  | [], acc => acc
  | t :: ts, acc =>
    match acc with
    | none => scanHighest st ts (some t)
    | some h =>
      if (st.thr t).priority > (st.thr h).priority then scanHighest st ts (some t)
      else scanHighest st ts (some h)

/-- One iteration of the recomputation loop of `lock_release` (synch.c
lines 313-336): scan the lock's waiter queue for the highest-priority
waiter and raise the releaser's effective priority to it if higher. -/
def releaseStep (cur l : Nat) (st : KState) : KState :=
  match scanHighest st (st.sems l).waiters none with
  | none => st
  | some hw =>
    if (st.thr cur).priority < (st.thr hw).priority then
      { st with
        thr := updFn st.thr cur
          { st.thr cur with priority := (st.thr hw).priority } }
    else st

/-- The recomputation loop of `lock_release` (synch.c lines 312-337):
for every lock still held, scan its semaphore's waiter queue and raise
the releaser's effective priority to the highest waiter's if that is
higher.  The state is threaded because the comparison reads the
releaser's current (running) priority. -/
def releaseRecompute (cur : Nat) : List Nat → KState → KState
  | [], st => st
  | l :: ls, st => releaseRecompute cur ls (releaseStep cur l st)

/-- Embedding of `lock_release` (synch.c lines 293-349): assert
ownership; remove the lock from the held list; reset the releaser's
effective priority to its base and re-raise it from the waiters of the
locks still held; clear the holder; `sema_up` the lock's semaphore; and
check preemption once more. -/
def lock_release (st : KState) (l : Nat) : Except String KState :=
  if lock_held_by_current_thread st l = false then
    Except.error "ASSERT (lock_held_by_current_thread (lock))" else
  let cur := st.running
  let held1 := ((st.thr cur).holding_locks).erase l
  let stA := { st with
    thr := updFn st.thr cur
      { st.thr cur with
        holding_locks := held1,
        priority := (st.thr cur).original_priority } }
  let stB := releaseRecompute cur held1 stA
  let stC := { stB with holder := updFn stB.holder l none }
  let r := sema_up stC l
  Except.ok (if should_preempt r.st then thread_yield r.st else r.st)

/-- The specification's release formula (spec §4.E step 2 and §8): the
maximum of the releaser's base priority and, over every lock still
held, the maximum effective priority among that lock's semaphore
waiters. -/
def specReleasePriority (st : KState) (cur : Nat) (held : List Nat) : Nat :=
  held.foldl
    (fun p l => ((st.sems l).waiters).foldl (fun m w => max m ((st.thr w).priority)) p)
    ((st.thr cur).original_priority)

/-! ### Timer and sleep engine (devices/timer.c) -/

/-- Observable events of one firing of the timer interrupt, recorded in
order: the tick-count increment, the scheduler's per-tick accounting
(`thread_tick`), and the sleeper wakeup scan (`thread_wakeup`). -/
inductive TimerEv where
  | incTicks
  | tickAccounting
  | wakeSleepers
deriving DecidableEq, Repr

/-- State of the timer subsystem: the 64-bit tick count (`Int`; wraparound
is out of scope per spec §4.B), the sleeper queue of
(thread id, wake tick) pairs in ascending wake-tick order, the threads
unblocked so far, and the event log. -/
structure TimerState where
  ticks : Int
  sleepers : List (Nat × Int)
  woken : List Nat
  log : List TimerEv
deriving DecidableEq, Repr

/-- Modelled from the spec (§4.C): `thread_tick` lives in
`threads/thread.c`, which is not among the sources; it is the
scheduler's per-tick accounting, recorded here only as an event. -/
def thread_tick (s : TimerState) : TimerState :=
  { s with log := s.log ++ [TimerEv.tickAccounting] }

/-- Modelled from the spec (§4.B): `thread_wakeup` lives in
`threads/thread.c`, which is not among the sources; it removes the
sleeper-queue prefix whose wake tick is ≤ the given tick count and
unblocks each removed thread. -/
def thread_wakeup (now : Int) (s : TimerState) : TimerState :=
  { s with
    sleepers := s.sleepers.dropWhile (fun e => decide (e.2 ≤ now)),
    woken := s.woken ++ (s.sleepers.takeWhile (fun e => decide (e.2 ≤ now))).map Prod.fst,
    log := s.log ++ [TimerEv.wakeSleepers] }

/-- Embedding of `timer_ticks` (timer.c lines 98-105). -/
def timer_ticks (s : TimerState) : Int := s.ticks

/-- Sorted insertion into the sleeper queue: ascending wake tick, ties
broken by insertion order (spec §4.B). -/
def insertSleeper (e : Nat × Int) : List (Nat × Int) → List (Nat × Int)
  | [] => [e]
  | x :: xs => if e.2 < x.2 then e :: x :: xs else x :: insertSleeper e xs

/-- Modelled from the spec (§4.B): `thread_sleep` lives in
`threads/thread.c`, which is not among the sources; it inserts the
caller into the sleeper queue with the given wake tick and blocks it. -/
def thread_sleep (tid : Nat) (wake : Int) (s : TimerState) : TimerState :=
  { s with sleepers := insertSleeper (tid, wake) s.sleepers }

/-- Embedding of `timer_sleep` (timer.c lines 129-137): return at once
when the argument is non-positive, otherwise compute
`wake_up_at = timer_ticks () + ticks` and go to sleep. -/
def timer_sleep (tid : Nat) (n : Int) (s : TimerState) : TimerState :=
  if n ≤ 0 then s
  else thread_sleep tid (timer_ticks s + n) s

/-- Embedding of `timer_interrupt` (timer.c lines 184-189):
`ticks++; thread_tick (); thread_wakeup (ticks);`. -/
def timer_interrupt (s : TimerState) : TimerState :=
  let s1 := { s with ticks := s.ticks + 1, log := s.log ++ [TimerEv.incTicks] }
  thread_wakeup s1.ticks (thread_tick s1)

/-! ### Trace model of a single semaphore (for the value/waiters invariant)

The state of one semaphore together with the set of threads that have
been unblocked by `sema_up` but have not yet resumed inside their
`sema_down` while-loop (synch.c lines 68-72).  Each step is one atomic
interrupt-disabled section of synch.c; priorities may differ at each
instant (donation), so every sorting step takes its own priority map. -/

structure SemM where
  value : Nat
  waiters : List Nat
  woken : List Nat
deriving DecidableEq, Repr

/-- Atomic steps of the semaphore operations of synch.c on one
semaphore: the fast path of `sema_down`/`sema_try_down` (`downTake`),
the blocking path of `sema_down` (`downBlock`), `sema_up` with its
re-sort / pop / increment (`up`), and the two resumption outcomes of
the `sema_down` while-loop re-check (`resumeTake`, `resumeBlock`).
A `sema_try_down` that finds the value zero leaves the state unchanged
and needs no step. -/
inductive SemStep : SemM → SemM → Prop where
  | downTake (t : Nat) (s : SemM) (h : 0 < s.value) :
      SemStep s ⟨s.value - 1, s.waiters, s.woken⟩
  | downBlock (t : Nat) (p : Nat → Nat) (s : SemM) (h : s.value = 0) :
      SemStep s ⟨s.value, list_insert_ordered p t s.waiters, s.woken⟩
  | up (p : Nat → Nat) (s : SemM) :
      SemStep s
        (match list_sort p s.waiters with
          | [] => ⟨s.value + 1, [], s.woken⟩
          | w :: rest => ⟨s.value + 1, rest, w :: s.woken⟩)
  | resumeTake (w : Nat) (s : SemM) (hw : w ∈ s.woken) (h : 0 < s.value) :
      SemStep s ⟨s.value - 1, s.waiters, s.woken.erase w⟩
  | resumeBlock (w : Nat) (p : Nat → Nat) (s : SemM) (hw : w ∈ s.woken) (h : s.value = 0) :
      SemStep s ⟨s.value, list_insert_ordered p w s.waiters, s.woken.erase w⟩

/-- Reachability through completed semaphore critical sections. -/
def SemReach : SemM → SemM → Prop := Relation.ReflTransGen SemStep

/-- The inductive invariant of the semaphore trace model: whenever the
waiter queue is non-empty, the value is covered by the threads that
were woken by a `sema_up` and still owe their decrement. -/
def SemInv (s : SemM) : Prop := s.waiters ≠ [] → s.value ≤ s.woken.length

/-! ### Concrete states used to instantiate the theorems -/

/-- A state with one standalone semaphore (id 0, value 0) on which
threads 1 and 2 wait; thread priorities equal their ids. -/
def wstC3 : KState :=
  ⟨0, fun t => ⟨t, t, Status.BLOCKED, none, []⟩, fun _ => none,
    fun _ => ⟨0, [1, 2]⟩, [], false⟩

/-- The nested-donation scenario of spec §8 (4): thread 0 = L (base 1,
READY, holds lock 1), thread 1 = M (base 2, BLOCKED on lock 1, holds
lock 2), thread 2 = H (base 3, RUNNING), thread 3 a READY bystander of
priority 2; ready queue [3, 0]. -/
def wstC1 : KState :=
  ⟨2,
    fun t =>
      if t = 0 then ⟨1, 1, Status.READY, none, [1]⟩
      else if t = 1 then ⟨2, 2, Status.BLOCKED, some 1, [2]⟩
      else if t = 2 then ⟨3, 3, Status.RUNNING, none, []⟩
      else ⟨2, 2, Status.READY, none, []⟩,
    fun l => if l = 1 then some 0 else if l = 2 then some 1 else none,
    fun l => if l = 1 then ⟨0, [1]⟩ else if l = 2 then ⟨0, []⟩ else ⟨1, []⟩,
    [3, 0], false⟩

/-- The state in which H blocks after acquiring the contended lock 2 in
the nested-donation scenario. -/
def c1Final : KState :=
  match lock_acquire 5 wstC1 2 with
  | Except.ok (AcquireResult.blocked s) => s
  | Except.ok (AcquireResult.acquired s) => s
  | Except.error _ => wstC1

/-- The multiple-donation scenario of spec §8 (5): running thread 0
(base 5, donated up to 20) holds locks 1 and 2; thread 1 (priority 10)
waits on lock 1; thread 2 (priority 20) waits on lock 2. -/
def wstC2 : KState :=
  ⟨0,
    fun t =>
      if t = 0 then ⟨5, 20, Status.RUNNING, none, [1, 2]⟩
      else if t = 1 then ⟨10, 10, Status.BLOCKED, some 1, []⟩
      else ⟨20, 20, Status.BLOCKED, some 2, []⟩,
    fun l => if l = 1 then some 0 else if l = 2 then some 0 else none,
    fun l => if l = 1 then ⟨0, [1]⟩ else if l = 2 then ⟨0, [2]⟩ else ⟨1, []⟩,
    [], false⟩

/-- A state in which the running thread 0 holds lock 1 (and no other
lock exists); used to trigger the assertion paths. -/
def wstC9 : KState :=
  ⟨0, fun _ => ⟨1, 1, Status.RUNNING, none, [1]⟩,
    fun l => if l = 1 then some 0 else none, fun _ => ⟨0, []⟩, [], false⟩

/-- A state with a free lock 0 (semaphore value 1) and a contended
lock 1 (semaphore value 0); nothing is held by the running thread. -/
def wstC10 : KState :=
  ⟨0, fun t => ⟨t, t, Status.RUNNING, none, []⟩, fun _ => none,
    fun l => if l = 0 then ⟨1, []⟩ else ⟨0, []⟩, [], false⟩

/-! ### Frame lemmas for the scheduler helpers -/

theorem thread_unblock_sems (st : KState) (w : Nat) :
    (thread_unblock st w).sems = st.sems := rfl

theorem thread_unblock_prio (st : KState) (w t : Nat) :
    ((thread_unblock st w).thr t).priority = (st.thr t).priority := by
  by_cases h : t = w
  · subst h; simp [thread_unblock, updFn_self]
  · simp [thread_unblock, updFn_other h]

theorem thread_unblock_base (st : KState) (w t : Nat) :
    ((thread_unblock st w).thr t).original_priority = (st.thr t).original_priority := by
  by_cases h : t = w
  · subst h; simp [thread_unblock, updFn_self]
  · simp [thread_unblock, updFn_other h]

theorem dispatch_sems (st : KState) (rl : List Nat) :
    (dispatch st rl).sems = st.sems := by
  cases rl <;> rfl

theorem dispatch_prio (st : KState) (rl : List Nat) (t : Nat) :
    ((dispatch st rl).thr t).priority = (st.thr t).priority := by
  cases rl with
  | nil => rfl
  | cons a rest =>
    by_cases h : t = a
    · subst h; simp [dispatch, updFn_self]
    · simp [dispatch, updFn_other h]

theorem dispatch_base (st : KState) (rl : List Nat) (t : Nat) :
    ((dispatch st rl).thr t).original_priority = (st.thr t).original_priority := by
  cases rl with
  | nil => rfl
  | cons a rest =>
    by_cases h : t = a
    · subst h; simp [dispatch, updFn_self]
    · simp [dispatch, updFn_other h]

theorem dispatch_status_ne_blocked (st : KState) (rl : List Nat) (t : Nat)
    (h : (st.thr t).status ≠ Status.BLOCKED) :
    ((dispatch st rl).thr t).status ≠ Status.BLOCKED := by
  cases rl with
  | nil => exact h
  | cons a rest =>
    by_cases h1 : t = a
    · subst h1; simp [dispatch, updFn_self]
    · simpa [dispatch, updFn_other h1] using h

theorem thread_yield_sems (st : KState) :
    (thread_yield st).sems = st.sems := by
  unfold thread_yield
  exact dispatch_sems _ _

theorem thread_yield_prio (st : KState) (t : Nat) :
    ((thread_yield st).thr t).priority = (st.thr t).priority := by
  unfold thread_yield
  rw [dispatch_prio]
  by_cases h : t = st.running
  · subst h; simp [updFn_self]
  · simp [updFn_other h]

theorem thread_yield_base (st : KState) (t : Nat) :
    ((thread_yield st).thr t).original_priority = (st.thr t).original_priority := by
  unfold thread_yield
  rw [dispatch_base]
  by_cases h : t = st.running
  · subst h; simp [updFn_self]
  · simp [updFn_other h]

theorem thread_yield_status_ne_blocked (st : KState) (t : Nat)
    (h : (st.thr t).status ≠ Status.BLOCKED) :
    ((thread_yield st).thr t).status ≠ Status.BLOCKED := by
  unfold thread_yield
  apply dispatch_status_ne_blocked
  by_cases h1 : t = st.running
  · subst h1; simp [updFn_self]
  · simpa [updFn_other h1] using h

theorem sema_up_prio (st : KState) (s t : Nat) :
    (((sema_up st s).st).thr t).priority = (st.thr t).priority := by
  unfold sema_up
  cases hs : list_sort (kprio st) (st.sems s).waiters with
  | nil =>
    by_cases hp : should_preempt
        { st with sems := updFn st.sems s { value := (st.sems s).value + 1, waiters := [] } }
    · simp only [hp, if_true]
      exact thread_yield_prio _ t
    · simp [hp]
  | cons w rest =>
    simp only []
    set st1 := thread_unblock st w with hst1
    set st2 := { st1 with
      sems := updFn st1.sems s { value := (st1.sems s).value + 1, waiters := rest } } with hst2
    have hpr : (st2.thr t).priority = (st.thr t).priority := thread_unblock_prio st w t
    by_cases hp : should_preempt st2
    · simp only [hp, if_true]
      exact (thread_yield_prio st2 t).trans hpr
    · simp only [hp, Bool.false_eq_true, if_false]
      exact hpr

theorem mem_insertSleeper {e a : Nat × Int} :
    ∀ {l : List (Nat × Int)}, a ∈ insertSleeper e l ↔ a = e ∨ a ∈ l
  | [] => by simp [insertSleeper]
  | x :: xs => by
    simp only [insertSleeper]
    by_cases h : e.2 < x.2
    · simp [h]
    · simp only [if_neg h, List.mem_cons, mem_insertSleeper (l := xs)]
      tauto

theorem sema_up_base (st : KState) (s t : Nat) :
    (((sema_up st s).st).thr t).original_priority = (st.thr t).original_priority := by
  unfold sema_up
  cases hs : list_sort (kprio st) (st.sems s).waiters with
  | nil =>
    by_cases hp : should_preempt
        { st with sems := updFn st.sems s { value := (st.sems s).value + 1, waiters := [] } }
    · simp only [hp, if_true]
      exact thread_yield_base _ t
    · simp [hp]
  | cons w rest =>
    simp only []
    set st1 := thread_unblock st w with hst1
    set st2 := { st1 with
      sems := updFn st1.sems s { value := (st1.sems s).value + 1, waiters := rest } } with hst2
    have hpr : (st2.thr t).original_priority = (st.thr t).original_priority :=
      thread_unblock_base st w t
    by_cases hp : should_preempt st2
    · simp only [hp, if_true]
      exact (thread_yield_base st2 t).trans hpr
    · simp only [hp, Bool.false_eq_true, if_false]
      exact hpr

/-! ### Claim theorems -/

/-- C8: `timer_sleep (n)` with `n ≤ 0` (zero and every negative value)
returns immediately: the caller is not blocked, nothing is inserted
into the sleeper queue, and no timer or scheduler state changes — the
state is unchanged. -/
theorem c8_nonpositive_sleep_noop (tid : Nat) (n : Int) (s : TimerState) (h : n ≤ 0) :
    timer_sleep tid n s = s := by
  simp [timer_sleep, h]

theorem c8_nonpositive_sleep_noop_witness :
    timer_sleep 7 (-3) ⟨5, [], [], []⟩ = ⟨5, [], [], []⟩ ∧
      timer_sleep 7 0 ⟨5, [], [], []⟩ = ⟨5, [], [], []⟩ :=
  ⟨c8_nonpositive_sleep_noop 7 (-3) ⟨5, [], [], []⟩ (by decide),
    c8_nonpositive_sleep_noop 7 0 ⟨5, [], [], []⟩ (by decide)⟩

/-- C7: `sema_up` on a semaphore whose waiter queue is empty increments
the value by one, unblocks no thread, triggers no yield (under the
scheduler invariant that the running thread is not already outranked by
the ready queue's head, `should_preempt = false` at entry), and leaves
all other state unchanged. -/
theorem c7_sema_up_no_waiters_frame (st : KState) (s : Nat)
    (hw : (st.sems s).waiters = []) (hp : should_preempt st = false) :
    sema_up st s =
      ⟨{ st with sems := updFn st.sems s { value := (st.sems s).value + 1, waiters := [] } },
        none, false⟩ := by
  have h1 : should_preempt
      { st with sems := updFn st.sems s { value := (st.sems s).value + 1, waiters := [] } }
      = should_preempt st := rfl
  unfold sema_up
  rw [hw]
  simp [list_sort, h1, hp]

theorem c7_sema_up_no_waiters_frame_witness :
    sema_up ⟨0, fun _ => ⟨5, 5, Status.RUNNING, none, []⟩, fun _ => none,
        fun _ => ⟨0, []⟩, [], false⟩ 0 =
      ⟨{ (⟨0, fun _ => ⟨5, 5, Status.RUNNING, none, []⟩, fun _ => none,
          fun _ => ⟨0, []⟩, [], false⟩ : KState) with
          sems := updFn (fun _ => ⟨0, []⟩) 0 { value := 1, waiters := [] } },
        none, false⟩ :=
  c7_sema_up_no_waiters_frame
    ⟨0, fun _ => ⟨5, 5, Status.RUNNING, none, []⟩, fun _ => none, fun _ => ⟨0, []⟩, [], false⟩
    0 rfl rfl

/-- C3: `sema_up` on a semaphore with a non-empty waiter queue first
re-sorts the queue by current effective priority, then unblocks the
head `w` of the sorted queue — a waiter of maximal effective priority
among all waiters at the instant of the V — removes it from the queue,
and increments the value. -/
theorem c3_sema_up_wakes_highest (st : KState) (s : Nat)
    (hne : (st.sems s).waiters ≠ []) :
    ∃ w rest,
      list_sort (kprio st) (st.sems s).waiters = w :: rest ∧
      (sema_up st s).woken = some w ∧
      w ∈ (st.sems s).waiters ∧
      (∀ t ∈ (st.sems s).waiters, (st.thr t).priority ≤ (st.thr w).priority) ∧
      ((sema_up st s).st.sems s).value = (st.sems s).value + 1 ∧
      ((sema_up st s).st.sems s).waiters = rest ∧
      ((sema_up st s).st.thr w).status ≠ Status.BLOCKED := by
  cases hs : list_sort (kprio st) (st.sems s).waiters with
  | nil =>
    exfalso
    have hlen := length_list_sort (kprio st) (st.sems s).waiters
    rw [hs] at hlen
    exact hne (List.length_eq_zero.mp hlen.symm)
  | cons w rest =>
    have hw_mem : w ∈ (st.sems s).waiters :=
      mem_list_sort.mp (hs ▸ List.mem_cons_self w rest)
    have hmax : ∀ t ∈ (st.sems s).waiters, (st.thr t).priority ≤ (st.thr w).priority := by
      intro t ht
      have h1 := headMax_list_sort (kprio st) (st.sems s).waiters t
        (mem_list_sort.mpr ht) w (by rw [hs]; rfl)
      exact h1
    have hub : ((thread_unblock st w).thr w).status = Status.READY := by
      simp [thread_unblock, updFn_self]
    set st1 := thread_unblock st w with hst1
    set st2 : KState := { st1 with
      sems := updFn st1.sems s { value := (st1.sems s).value + 1, waiters := rest } }
      with hst2
    have hnb2 : (st2.thr w).status ≠ Status.BLOCKED := by
      show (st1.thr w).status ≠ Status.BLOCKED
      rw [hub]
      decide
    have hv : (st2.sems s).value = (st.sems s).value + 1 := by
      rw [hst2]
      show (updFn st1.sems s { value := (st1.sems s).value + 1, waiters := rest } s).value
        = (st.sems s).value + 1
      rw [updFn_self, hst1, thread_unblock_sems]
    have hrest : (st2.sems s).waiters = rest := by
      rw [hst2]
      show (updFn st1.sems s { value := (st1.sems s).value + 1, waiters := rest } s).waiters
        = rest
      rw [updFn_self]
    by_cases hp : should_preempt st2
    · have hup : sema_up st s = ⟨thread_yield st2, some w, true⟩ := by
        unfold sema_up
        rw [hs]
        simp [hp, hst2, hst1]
      refine ⟨w, rest, rfl, ?_, hw_mem, hmax, ?_, ?_, ?_⟩
      · rw [hup]
      · rw [hup]
        show ((thread_yield st2).sems s).value = (st.sems s).value + 1
        rw [thread_yield_sems]
        exact hv
      · rw [hup]
        show ((thread_yield st2).sems s).waiters = rest
        rw [thread_yield_sems]
        exact hrest
      · rw [hup]
        exact thread_yield_status_ne_blocked st2 w hnb2
    · have hup : sema_up st s = ⟨st2, some w, false⟩ := by
        unfold sema_up
        rw [hs]
        simp [hp, hst2, hst1]
      refine ⟨w, rest, rfl, ?_, hw_mem, hmax, ?_, ?_, ?_⟩
      · rw [hup]
      · rw [hup]
        exact hv
      · rw [hup]
        exact hrest
      · rw [hup]
        exact hnb2

/-- One step of the semaphore trace model preserves the invariant. -/
theorem semStep_inv {s s' : SemM} (h : SemStep s s') (hinv : SemInv s) : SemInv s' := by
  cases h with
  | downTake t s hv =>
    intro hw
    exact Nat.le_trans (Nat.sub_le _ _) (hinv hw)
  | downBlock t p s hv =>
    intro _
    rw [hv]
    exact Nat.zero_le _
  | up p s =>
    cases hsort : list_sort p s.waiters with
    | nil =>
      intro hw
      exact absurd rfl hw
    | cons w rest =>
      intro _
      have hne : s.waiters ≠ [] := by
        intro hnil
        rw [hnil] at hsort
        simp [list_sort] at hsort
      have := hinv hne
      simpa using Nat.succ_le_succ this
  | resumeTake w s hw hv =>
    intro hne
    have h1 := hinv hne
    have h2 : (s.woken.erase w).length + 1 = s.woken.length := List.length_erase_add_one hw
    show s.value - 1 ≤ (s.woken.erase w).length
    omega
  | resumeBlock w p s hw hv =>
    intro _
    rw [hv]
    exact Nat.zero_le _

/-- The invariant holds in every reachable semaphore state. -/
theorem semReach_inv {s0 s : SemM} (h : SemReach s0 s) (h0 : SemInv s0) : SemInv s := by
  induction h with
  | refl => exact h0
  | tail _ hstep ih => exact semStep_inv hstep ih

/-- On a sleeper queue sorted by ascending wake tick, every entry due at
`now` lands in the `takeWhile` prefix that `thread_wakeup` removes. -/
theorem mem_takeWhile_of_due {now : Int} :
    ∀ {l : List (Nat × Int)}, List.Pairwise (fun a b : Nat × Int => a.2 ≤ b.2) l →
      ∀ e ∈ l, e.2 ≤ now → e ∈ l.takeWhile (fun x => decide (x.2 ≤ now))
  | [], _, e, he, _ => absurd he (List.not_mem_nil e)
  | x :: xs, hp, e, he, hle => by
    rcases List.mem_cons.mp he with rfl | he'
    · rw [List.takeWhile_cons_of_pos (by simpa using hle)]
      exact List.mem_cons_self _ _
    · have hxe : x.2 ≤ e.2 := (List.pairwise_cons.mp hp).1 e he'
      rw [List.takeWhile_cons_of_pos (by simpa using le_trans hxe hle)]
      exact List.mem_cons_of_mem _
        (mem_takeWhile_of_due (List.pairwise_cons.mp hp).2 e he' hle)

/-- On a sleeper queue sorted by ascending wake tick, every entry that
survives the `dropWhile` of `thread_wakeup` is strictly after `now`. -/
theorem dropWhile_gt_of_sorted {now : Int} :
    ∀ {l : List (Nat × Int)}, List.Pairwise (fun a b : Nat × Int => a.2 ≤ b.2) l →
      ∀ e ∈ l.dropWhile (fun x => decide (x.2 ≤ now)), now < e.2
  | [], _, e, he => by simp [List.dropWhile] at he
  | x :: xs, hp, e, he => by
    by_cases hx : x.2 ≤ now
    · rw [List.dropWhile_cons_of_pos (by simpa using hx)] at he
      exact dropWhile_gt_of_sorted (List.pairwise_cons.mp hp).2 e he
    · rw [List.dropWhile_cons_of_neg (by simpa using hx)] at he
      rcases List.mem_cons.mp he with rfl | he'
      · exact lt_of_not_le hx
      · exact lt_of_lt_of_le (lt_of_not_le hx) ((List.pairwise_cons.mp hp).1 e he')

/-- C5 counterexample: at a concrete state the timer interrupt's event
order is increment, per-tick accounting, wakeup — not increment,
wakeup, accounting as the claim states (timer.c lines 184-189 call
`thread_tick ()` before `thread_wakeup (ticks)`). -/
theorem c5_counterexample :
    (timer_interrupt ⟨0, [(7, 1)], [], []⟩).log
        = [TimerEv.incTicks, TimerEv.tickAccounting, TimerEv.wakeSleepers] ∧
      [TimerEv.incTicks, TimerEv.tickAccounting, TimerEv.wakeSleepers]
        ≠ [TimerEv.incTicks, TimerEv.wakeSleepers, TimerEv.tickAccounting] :=
  ⟨by decide, by decide⟩

/-- C5 (amended): every firing of the timer interrupt first increments
the tick count, then calls the scheduler's per-tick accounting, and
only after that removes and unblocks exactly the sleepers whose wake
tick is ≤ the new tick count (the queue being sorted by ascending wake
tick). -/
theorem c5_tick_interrupt_order (s : TimerState)
    (hs : List.Pairwise (fun a b : Nat × Int => a.2 ≤ b.2) s.sleepers) :
    (timer_interrupt s).ticks = s.ticks + 1 ∧
    (timer_interrupt s).log
      = s.log ++ [TimerEv.incTicks, TimerEv.tickAccounting, TimerEv.wakeSleepers] ∧
    (∀ e ∈ s.sleepers, e.2 ≤ s.ticks + 1 → e.1 ∈ (timer_interrupt s).woken) ∧
    (∀ e ∈ (timer_interrupt s).sleepers, s.ticks + 1 < e.2 ∧ e ∈ s.sleepers) := by
  refine ⟨rfl, ?_, ?_, ?_⟩
  · show ((s.log ++ [TimerEv.incTicks]) ++ [TimerEv.tickAccounting]) ++ [TimerEv.wakeSleepers]
      = s.log ++ [TimerEv.incTicks, TimerEv.tickAccounting, TimerEv.wakeSleepers]
    simp
  · intro e he hdue
    show e.1 ∈ s.woken ++
      (s.sleepers.takeWhile (fun x => decide (x.2 ≤ s.ticks + 1))).map Prod.fst
    exact List.mem_append_right _
      (List.mem_map_of_mem Prod.fst (mem_takeWhile_of_due hs e he hdue))
  · intro e he
    have he' : e ∈ s.sleepers.dropWhile (fun x => decide (x.2 ≤ s.ticks + 1)) := he
    exact ⟨dropWhile_gt_of_sorted hs e he',
      (List.dropWhile_sublist _).mem he'⟩

theorem c5_tick_interrupt_order_witness :
    (timer_interrupt ⟨10, [(3, 11), (4, 20)], [], []⟩).ticks = 11 ∧
      (timer_interrupt ⟨10, [(3, 11), (4, 20)], [], []⟩).log
        = [] ++ [TimerEv.incTicks, TimerEv.tickAccounting, TimerEv.wakeSleepers] ∧
      (∀ e ∈ [((3 : Nat), (11 : Int)), (4, 20)], e.2 ≤ 11 →
        e.1 ∈ (timer_interrupt ⟨10, [(3, 11), (4, 20)], [], []⟩).woken) ∧
      (∀ e ∈ (timer_interrupt ⟨10, [(3, 11), (4, 20)], [], []⟩).sleepers,
        (10 : Int) + 1 < e.2 ∧ e ∈ [((3 : Nat), (11 : Int)), (4, 20)]) :=
  c5_tick_interrupt_order ⟨10, [(3, 11), (4, 20)], [], []⟩ (by decide)

/-- C6: a thread calling `timer_sleep (n)` with `n > 0` at tick count
t₀ has its wake tick computed as `t₀ + n` and entered in the sleeper
queue, and is not unblocked by any of the first `m < n` timer
interrupts — i.e. not before the tick count reaches `t₀ + n`. -/
theorem c6_sleep_lower_bound (s : TimerState) (tid : Nat) (n : Int)
    (hn : 0 < n)
    (hsl : ∀ e ∈ s.sleepers, e.1 ≠ tid)
    (hwk : tid ∉ s.woken) :
    (tid, s.ticks + n) ∈ (timer_sleep tid n s).sleepers ∧
    ∀ m : Nat, (m : Int) < n →
      tid ∉ (timer_interrupt^[m] (timer_sleep tid n s)).woken := by
  have hnle : ¬ n ≤ 0 := not_le.mpr hn
  have hsleep : timer_sleep tid n s = thread_sleep tid (s.ticks + n) s := by
    simp [timer_sleep, hnle, timer_ticks]
  constructor
  · rw [hsleep]
    exact mem_insertSleeper.mpr (Or.inl rfl)
  · have main : ∀ m : Nat, (m : Int) < n →
        ((timer_interrupt^[m] (timer_sleep tid n s)).ticks = s.ticks + m ∧
         (∀ e ∈ (timer_interrupt^[m] (timer_sleep tid n s)).sleepers,
            e.1 = tid → e.2 = s.ticks + n) ∧
         tid ∉ (timer_interrupt^[m] (timer_sleep tid n s)).woken) := by
      intro m
      induction m with
      | zero =>
        intro _
        refine ⟨by simp [hsleep, thread_sleep], ?_, by simpa [hsleep, thread_sleep] using hwk⟩
        intro e he hetid
        rw [hsleep] at he
        rcases mem_insertSleeper.mp he with rfl | he'
        · rfl
        · exact absurd hetid (hsl e he')
      | succ k ih =>
        intro hk1
        have hk : (k : Int) < n := by
          push_cast at hk1
          linarith
        obtain ⟨ht, hslk, hwkk⟩ := ih hk
        rw [Function.iterate_succ_apply']
        set sm := timer_interrupt^[k] (timer_sleep tid n s) with hsm
        refine ⟨?_, ?_, ?_⟩
        · show sm.ticks + 1 = s.ticks + ((k : Int) + 1)
          rw [ht]
          ring
        · intro e he hetid
          have he' : e ∈ sm.sleepers.dropWhile
              (fun x => decide (x.2 ≤ sm.ticks + 1)) := he
          exact hslk e ((List.dropWhile_sublist _).mem he') hetid
        · intro habs
          have habs' : tid ∈ sm.woken ++
              (sm.sleepers.takeWhile (fun x => decide (x.2 ≤ sm.ticks + 1))).map Prod.fst :=
            habs
          rcases List.mem_append.mp habs' with h1 | h1
          · exact hwkk h1
          · obtain ⟨e, he, hefst⟩ := List.mem_map.mp h1
            have hee : e ∈ sm.sleepers := (List.takeWhile_sublist _).mem he
            have hpred := List.mem_takeWhile_imp he
            have hwake : e.2 = s.ticks + n := hslk e hee hefst
            have hbound : e.2 ≤ sm.ticks + 1 := by simpa using hpred
            rw [hwake, ht] at hbound
            have hcontr : n ≤ (k : Int) + 1 := by linarith
            have hk1' : (k : Int) + 1 < n := by
              have := hk1
              push_cast at this
              linarith
            linarith
    intro m hm
    exact (main m hm).2.2

theorem c6_sleep_lower_bound_witness :
    (0 : Int) < 2 ∧
      ((3, (0 : Int) + 2) ∈ (timer_sleep 3 2 ⟨0, [], [], []⟩).sleepers ∧
        ∀ m : Nat, (m : Int) < 2 →
          3 ∉ (timer_interrupt^[m] (timer_sleep 3 2 ⟨0, [], [], []⟩)).woken) :=
  ⟨by decide,
    c6_sleep_lower_bound ⟨0, [], [], []⟩ 3 2 (by decide)
      (by intro e he; simp at he) (by simp)⟩

/-- C4 counterexample: starting from `sema_init 0`, thread 0 blocks in
`sema_down`, thread 1 blocks, and one completed `sema_up` pops thread 0
and increments the value — reaching a state with value 1 while thread 1
is still in the waiter queue.  The claim's invariant fails in the
window before the woken thread resumes its `sema_down` loop. -/
theorem c4_counterexample :
    SemReach ⟨0, [], []⟩ ⟨1, [1], [0]⟩ ∧ (1 : Nat) ≠ 0 ∧ ([1] : List Nat) ≠ [] := by
  refine ⟨?_, by decide, by decide⟩
  have s1 : SemStep ⟨0, [], []⟩ ⟨0, [0], []⟩ :=
    SemStep.downBlock 0 (fun _ => 0) ⟨0, [], []⟩ rfl
  have s2 : SemStep ⟨0, [0], []⟩ ⟨0, [0, 1], []⟩ :=
    SemStep.downBlock 1 (fun _ => 0) ⟨0, [0], []⟩ rfl
  have s3 : SemStep ⟨0, [0, 1], []⟩ ⟨1, [1], [0]⟩ :=
    SemStep.up (fun _ => 0) ⟨0, [0, 1], []⟩
  exact Relation.ReflTransGen.head s1
    (Relation.ReflTransGen.head s2 (Relation.ReflTransGen.single s3))

/-- C4 (amended): after every completed semaphore operation, if no
thread woken by a `sema_up` is still pending its resumption inside the
`sema_down` while-loop, then the value is zero or the waiter queue is
empty.  (In general, a reachable state satisfies
`waiters ≠ [] → value ≤ number of pending woken threads`.) -/
theorem c4_value_zero_or_no_waiters (v : Nat) (s : SemM)
    (h : SemReach ⟨v, [], []⟩ s) (hq : s.woken = []) :
    s.value = 0 ∨ s.waiters = [] := by
  have hinv : SemInv s := semReach_inv h (fun hw => absurd rfl hw)
  by_cases hw : s.waiters = []
  · exact Or.inr hw
  · left
    have h1 := hinv hw
    rw [hq] at h1
    simpa using h1

theorem c4_value_zero_or_no_waiters_witness :
    SemReach ⟨0, [], []⟩ ⟨0, [], []⟩ ∧
      ((⟨0, [], []⟩ : SemM).value = 0 ∨ (⟨0, [], []⟩ : SemM).waiters = []) :=
  ⟨Relation.ReflTransGen.refl,
    c4_value_zero_or_no_waiters 0 ⟨0, [], []⟩ Relation.ReflTransGen.refl rfl⟩

theorem c3_sema_up_wakes_highest_witness :
    (wstC3.sems 0).waiters ≠ [] ∧
      (∃ w rest,
        list_sort (kprio wstC3) (wstC3.sems 0).waiters = w :: rest ∧
        (sema_up wstC3 0).woken = some w ∧
        w ∈ (wstC3.sems 0).waiters ∧
        (∀ t ∈ (wstC3.sems 0).waiters, (wstC3.thr t).priority ≤ (wstC3.thr w).priority) ∧
        ((sema_up wstC3 0).st.sems 0).value = (wstC3.sems 0).value + 1 ∧
        ((sema_up wstC3 0).st.sems 0).waiters = rest ∧
        ((sema_up wstC3 0).st.thr w).status ≠ Status.BLOCKED) :=
  ⟨by decide, c3_sema_up_wakes_highest wstC3 0 (by decide)⟩

theorem thread_unblock_holding (st : KState) (w t : Nat) :
    ((thread_unblock st w).thr t).holding_locks = (st.thr t).holding_locks := by
  by_cases h : t = w
  · subst h; simp [thread_unblock, updFn_self]
  · simp [thread_unblock, updFn_other h]

theorem dispatch_holding (st : KState) (rl : List Nat) (t : Nat) :
    ((dispatch st rl).thr t).holding_locks = (st.thr t).holding_locks := by
  cases rl with
  | nil => rfl
  | cons a rest =>
    by_cases h : t = a
    · subst h; simp [dispatch, updFn_self]
    · simp [dispatch, updFn_other h]

theorem thread_yield_holding (st : KState) (t : Nat) :
    ((thread_yield st).thr t).holding_locks = (st.thr t).holding_locks := by
  unfold thread_yield
  rw [dispatch_holding]
  by_cases h : t = st.running
  · subst h; simp [updFn_self]
  · simp [updFn_other h]

theorem sema_up_holding (st : KState) (s t : Nat) :
    (((sema_up st s).st).thr t).holding_locks = (st.thr t).holding_locks := by
  unfold sema_up
  cases hs : list_sort (kprio st) (st.sems s).waiters with
  | nil =>
    by_cases hp : should_preempt
        { st with sems := updFn st.sems s { value := (st.sems s).value + 1, waiters := [] } }
    · simp only [hp, if_true]
      exact thread_yield_holding _ t
    · simp [hp]
  | cons w rest =>
    simp only []
    set st1 := thread_unblock st w with hst1
    set st2 := { st1 with
      sems := updFn st1.sems s { value := (st1.sems s).value + 1, waiters := rest } } with hst2
    have hpr : (st2.thr t).holding_locks = (st.thr t).holding_locks :=
      thread_unblock_holding st w t
    by_cases hp : should_preempt st2
    · simp only [hp, if_true]
      exact (thread_yield_holding st2 t).trans hpr
    · simp only [hp, Bool.false_eq_true, if_false]
      exact hpr

/-- Folding a function that agrees on the list's members gives the same
result. -/
theorem foldl_congr_mem {β : Type} :
    ∀ (ls : List β) (f g : Nat → β → Nat) (a : Nat),
      (∀ x ∈ ls, ∀ p, f p x = g p x) → ls.foldl f a = ls.foldl g a
  | [], _, _, _, _ => rfl
  | x :: ls, f, g, a, h => by
    show ls.foldl f (f a x) = ls.foldl g (g a x)
    rw [h x (List.mem_cons_self x ls) a]
    exact foldl_congr_mem ls f g _ (fun y hy p => h y (List.mem_cons_of_mem _ hy) p)

/-- A running maximum starting at `max a b` factors out `a`. -/
theorem foldl_max_init (f : Nat → Nat) :
    ∀ (ws : List Nat) (a b : Nat),
      ws.foldl (fun m w => max m (f w)) (max a b)
        = max a (ws.foldl (fun m w => max m (f w)) b)
  | [], _, _ => rfl
  | w :: ws, a, b => by
    show ws.foldl _ (max (max a b) (f w)) = max a (ws.foldl _ (max b (f w)))
    rw [max_assoc]
    exact foldl_max_init f ws a (max b (f w))

/-- The waiter scan of `lock_release` returns a thread whose priority is
the running maximum of the scanned priorities. -/
theorem scanHighest_map_prio (st : KState) :
    ∀ (ws : List Nat) (a : Nat),
      (scanHighest st ws (some a)).map (fun t => (st.thr t).priority)
        = some (ws.foldl (fun m w => max m ((st.thr w).priority)) ((st.thr a).priority))
  | [], _ => rfl
  | t :: ts, a => by
    show (if (st.thr t).priority > (st.thr a).priority
        then scanHighest st ts (some t) else scanHighest st ts (some a)).map _ = _
    by_cases h : (st.thr t).priority > (st.thr a).priority
    · rw [if_pos h, scanHighest_map_prio st ts t]
      have : max ((st.thr a).priority) ((st.thr t).priority) = (st.thr t).priority :=
        Nat.max_eq_right (Nat.le_of_lt h)
      show _ = some (ts.foldl _ (max ((st.thr a).priority) ((st.thr t).priority)))
      rw [this]
    · rw [if_neg h, scanHighest_map_prio st ts a]
      have : max ((st.thr a).priority) ((st.thr t).priority) = (st.thr a).priority :=
        Nat.max_eq_left (Nat.le_of_not_lt h)
      show _ = some (ts.foldl _ (max ((st.thr a).priority) ((st.thr t).priority)))
      rw [this]

/-- The scan-and-raise step can only change the releaser's effective
priority; semaphores and every other thread field are untouched. -/
theorem releaseStep_sems (cur l : Nat) (s : KState) :
    (releaseStep cur l s).sems = s.sems := by
  unfold releaseStep
  cases hsc : scanHighest s (s.sems l).waiters none with
  | none => rfl
  | some hw =>
    by_cases hlt : (s.thr cur).priority < (s.thr hw).priority
    · simp [hlt]
    · simp [hlt]

theorem releaseStep_thr_other (cur l : Nat) (s : KState) {t : Nat} (h : t ≠ cur) :
    (releaseStep cur l s).thr t = s.thr t := by
  unfold releaseStep
  cases hsc : scanHighest s (s.sems l).waiters none with
  | none => rfl
  | some hw =>
    by_cases hlt : (s.thr cur).priority < (s.thr hw).priority
    · simp [hlt, updFn_other h]
    · simp [hlt]

theorem releaseStep_holding (cur l : Nat) (s : KState) (t : Nat) :
    ((releaseStep cur l s).thr t).holding_locks = (s.thr t).holding_locks := by
  unfold releaseStep
  cases hsc : scanHighest s (s.sems l).waiters none with
  | none => rfl
  | some hw =>
    by_cases hlt : (s.thr cur).priority < (s.thr hw).priority
    · by_cases h : t = cur
      · subst h; simp [hlt, updFn_self]
      · simp [hlt, updFn_other h]
    · simp [hlt]

/-- After the scan-and-raise step the releaser's effective priority is
the maximum of its previous priority and the priorities of the
scanned lock's waiters. -/
theorem releaseStep_prio (cur l : Nat) (s : KState) :
    ((releaseStep cur l s).thr cur).priority
      = ((s.sems l).waiters).foldl (fun m w => max m ((s.thr w).priority))
          ((s.thr cur).priority) := by
  unfold releaseStep
  cases hws : (s.sems l).waiters with
  | nil =>
    rfl
  | cons w ts =>
    rw [show scanHighest s (w :: ts) none = scanHighest s ts (some w) from rfl]
    have hmap := scanHighest_map_prio s ts w
    cases hsc : scanHighest s ts (some w) with
    | none =>
      rw [hsc] at hmap
      exact absurd hmap (by simp)
    | some hw =>
      rw [hsc] at hmap
      simp only [Option.map_some'] at hmap
      have hM : (s.thr hw).priority
          = ts.foldl (fun m w' => max m ((s.thr w').priority)) ((s.thr w).priority) :=
        Option.some.inj hmap
      have hfold : (w :: ts).foldl (fun m w' => max m ((s.thr w').priority))
            ((s.thr cur).priority)
          = max ((s.thr cur).priority) ((s.thr hw).priority) := by
        show ts.foldl (fun m w' => max m ((s.thr w').priority))
            (max ((s.thr cur).priority) ((s.thr w).priority))
          = max ((s.thr cur).priority) ((s.thr hw).priority)
        rw [foldl_max_init (fun w' => (s.thr w').priority) ts, hM]
      by_cases hlt : (s.thr cur).priority < (s.thr hw).priority
      · simp only [hlt, if_true, updFn_self]
        rw [hfold, Nat.max_eq_right (Nat.le_of_lt hlt)]
      · simp only [hlt, if_false]
        rw [hfold, Nat.max_eq_left (Nat.le_of_not_lt hlt)]

/-- The recomputation loop never touches any thread's held-lock list. -/
theorem releaseRecompute_holding (cur : Nat) :
    ∀ (ls : List Nat) (s : KState) (t : Nat),
      ((releaseRecompute cur ls s).thr t).holding_locks = (s.thr t).holding_locks
  | [], _, _ => rfl
  | l' :: ls, s, t =>
    (releaseRecompute_holding cur ls (releaseStep cur l' s) t).trans
      (releaseStep_holding cur l' s t)

/-- The recomputation loop of `lock_release` computes exactly the
running maximum, over the scanned locks, of the waiter priorities
joined with the starting priority — all read off the initial state,
provided the releaser itself waits on none of the scanned locks. -/
theorem releaseRecompute_priority (cur : Nat) :
    ∀ (ls : List Nat) (s : KState),
      (∀ l' ∈ ls, cur ∉ (s.sems l').waiters) →
      ((releaseRecompute cur ls s).thr cur).priority
        = ls.foldl
            (fun p l' => ((s.sems l').waiters).foldl
              (fun m w => max m ((s.thr w).priority)) p)
            ((s.thr cur).priority)
  | [], _, _ => rfl
  | l' :: ls, s, hnw => by
    show ((releaseRecompute cur ls (releaseStep cur l' s)).thr cur).priority = _
    set s1 := releaseStep cur l' s with hs1
    have hsems : s1.sems = s.sems := releaseStep_sems cur l' s
    have hthr : ∀ w, w ≠ cur → s1.thr w = s.thr w :=
      fun w hw => releaseStep_thr_other cur l' s hw
    have hrec := releaseRecompute_priority cur ls s1
      (by
        intro l'' hl'' hmem
        exact hnw l'' (List.mem_cons_of_mem _ hl'') (by rwa [hsems] at hmem))
    rw [hrec]
    have hcongr : ls.foldl
          (fun p l'' => ((s1.sems l'').waiters).foldl
            (fun m w => max m ((s1.thr w).priority)) p)
          ((s1.thr cur).priority)
        = ls.foldl
            (fun p l'' => ((s.sems l'').waiters).foldl
              (fun m w => max m ((s.thr w).priority)) p)
            ((s1.thr cur).priority) := by
      apply foldl_congr_mem
      intro l'' hl'' p
      rw [hsems]
      apply foldl_congr_mem
      intro w hw q
      have hwne : w ≠ cur := by
        intro heq
        exact hnw l'' (List.mem_cons_of_mem _ hl'') (heq ▸ hw)
      rw [hthr w hwne]
    rw [hcongr]
    have hp1 : (s1.thr cur).priority
        = ((s.sems l').waiters).foldl (fun m w => max m ((s.thr w).priority))
            ((s.thr cur).priority) := releaseStep_prio cur l' s
    rw [hp1, List.foldl_cons]

/-! ### Lemmas about the donation walk -/

theorem donateStep_sems (cur target : Nat) (st : KState) :
    (donateStep cur target st).sems = st.sems := by
  unfold donateStep
  by_cases h : (st.thr target).priority < (st.thr cur).priority
  · by_cases h2 : (st.thr target).status = Status.READY
    · simp [h, h2]
    · simp [h, h2]
  · simp [h]

theorem donateStep_holder (cur target : Nat) (st : KState) :
    (donateStep cur target st).holder = st.holder := by
  unfold donateStep
  by_cases h : (st.thr target).priority < (st.thr cur).priority
  · by_cases h2 : (st.thr target).status = Status.READY
    · simp [h, h2]
    · simp [h, h2]
  · simp [h]

theorem donateStep_running (cur target : Nat) (st : KState) :
    (donateStep cur target st).running = st.running := by
  unfold donateStep
  by_cases h : (st.thr target).priority < (st.thr cur).priority
  · by_cases h2 : (st.thr target).status = Status.READY
    · simp [h, h2]
    · simp [h, h2]
  · simp [h]

theorem donateStep_in_intr (cur target : Nat) (st : KState) :
    (donateStep cur target st).in_intr = st.in_intr := by
  unfold donateStep
  by_cases h : (st.thr target).priority < (st.thr cur).priority
  · by_cases h2 : (st.thr target).status = Status.READY
    · simp [h, h2]
    · simp [h, h2]
  · simp [h]

theorem donateStep_thr_other (cur target : Nat) (st : KState) {t : Nat}
    (h : t ≠ target) :
    (donateStep cur target st).thr t = st.thr t := by
  unfold donateStep
  by_cases h1 : (st.thr target).priority < (st.thr cur).priority
  · by_cases h2 : (st.thr target).status = Status.READY
    · simp [h1, h2, updFn_other h]
    · simp [h1, h2, updFn_other h]
  · simp [h1]

theorem donateStep_thr_target (cur target : Nat) (st : KState) :
    (donateStep cur target st).thr target
      = { st.thr target with
          priority := max ((st.thr target).priority) ((st.thr cur).priority) } := by
  unfold donateStep
  by_cases h1 : (st.thr target).priority < (st.thr cur).priority
  · rw [Nat.max_eq_right (Nat.le_of_lt h1)]
    by_cases h2 : (st.thr target).status = Status.READY
    · simp [h1, h2, updFn_self]
    · simp [h1, h2, updFn_self]
  · rw [Nat.max_eq_left (Nat.le_of_not_lt h1)]
    simp [h1]

theorem donateStep_cur_prio (cur target : Nat) (st : KState) :
    ((donateStep cur target st).thr cur).priority = (st.thr cur).priority := by
  by_cases h : cur = target
  · subst h
    rw [donateStep_thr_target]
    exact Nat.max_self _
  · rw [donateStep_thr_other cur target st h]

theorem donateStep_thr_frame (cur target : Nat) (st : KState) (t : Nat) :
    ((donateStep cur target st).thr t).original_priority = (st.thr t).original_priority ∧
    ((donateStep cur target st).thr t).status = (st.thr t).status ∧
    ((donateStep cur target st).thr t).wait_on_lock = (st.thr t).wait_on_lock ∧
    ((donateStep cur target st).thr t).holding_locks = (st.thr t).holding_locks := by
  by_cases h : t = target
  · subst h
    rw [donateStep_thr_target]
    exact ⟨rfl, rfl, rfl, rfl⟩
  · rw [donateStep_thr_other cur target st h]
    exact ⟨rfl, rfl, rfl, rfl⟩

theorem donate_succ_some (cur fuel target nxt : Nat) (st : KState)
    (h : nextTarget (donateStep cur target st) target = some nxt) :
    donate cur (fuel + 1) st target = donate cur fuel (donateStep cur target st) nxt := by
  conv_lhs => unfold donate
  simp only [h]

theorem donate_succ_none (cur fuel target : Nat) (st : KState)
    (h : nextTarget (donateStep cur target st) target = none) :
    donate cur (fuel + 1) st target = donateStep cur target st := by
  conv_lhs => unfold donate
  simp only [h]

theorem chainList_succ_some (st : KState) (fuel target nxt : Nat)
    (h : nextTarget st target = some nxt) :
    chainList st (fuel + 1) target = target :: chainList st fuel nxt := by
  conv_lhs => unfold chainList
  simp only [h]

theorem chainList_succ_none (st : KState) (fuel target : Nat)
    (h : nextTarget st target = none) :
    chainList st (fuel + 1) target = [target] := by
  conv_lhs => unfold chainList
  simp only [h]

/-- The bump step does not move the wait-for chain. -/
theorem nextTarget_donateStep (cur target : Nat) (st : KState) (t : Nat) :
    nextTarget (donateStep cur target st) t = nextTarget st t := by
  unfold nextTarget
  rw [(donateStep_thr_frame cur target st t).2.2.1, donateStep_holder]

theorem donate_sems (cur : Nat) :
    ∀ (fuel : Nat) (st : KState) (target : Nat),
      (donate cur fuel st target).sems = st.sems
  | 0, _, _ => rfl
  | fuel + 1, st, target => by
    cases hn : nextTarget (donateStep cur target st) target with
    | none =>
      rw [donate_succ_none cur fuel target st hn]
      exact donateStep_sems cur target st
    | some nxt =>
      rw [donate_succ_some cur fuel target nxt st hn]
      exact (donate_sems cur fuel _ nxt).trans (donateStep_sems cur target st)

theorem donate_holder (cur : Nat) :
    ∀ (fuel : Nat) (st : KState) (target : Nat),
      (donate cur fuel st target).holder = st.holder
  | 0, _, _ => rfl
  | fuel + 1, st, target => by
    cases hn : nextTarget (donateStep cur target st) target with
    | none =>
      rw [donate_succ_none cur fuel target st hn]
      exact donateStep_holder cur target st
    | some nxt =>
      rw [donate_succ_some cur fuel target nxt st hn]
      exact (donate_holder cur fuel _ nxt).trans (donateStep_holder cur target st)

theorem donate_running (cur : Nat) :
    ∀ (fuel : Nat) (st : KState) (target : Nat),
      (donate cur fuel st target).running = st.running
  | 0, _, _ => rfl
  | fuel + 1, st, target => by
    cases hn : nextTarget (donateStep cur target st) target with
    | none =>
      rw [donate_succ_none cur fuel target st hn]
      exact donateStep_running cur target st
    | some nxt =>
      rw [donate_succ_some cur fuel target nxt st hn]
      exact (donate_running cur fuel _ nxt).trans (donateStep_running cur target st)

theorem donate_in_intr (cur : Nat) :
    ∀ (fuel : Nat) (st : KState) (target : Nat),
      (donate cur fuel st target).in_intr = st.in_intr
  | 0, _, _ => rfl
  | fuel + 1, st, target => by
    cases hn : nextTarget (donateStep cur target st) target with
    | none =>
      rw [donate_succ_none cur fuel target st hn]
      exact donateStep_in_intr cur target st
    | some nxt =>
      rw [donate_succ_some cur fuel target nxt st hn]
      exact (donate_in_intr cur fuel _ nxt).trans (donateStep_in_intr cur target st)

theorem donate_thr_frame (cur : Nat) :
    ∀ (fuel : Nat) (st : KState) (target t : Nat),
      ((donate cur fuel st target).thr t).original_priority
          = (st.thr t).original_priority ∧
      ((donate cur fuel st target).thr t).status = (st.thr t).status ∧
      ((donate cur fuel st target).thr t).wait_on_lock = (st.thr t).wait_on_lock ∧
      ((donate cur fuel st target).thr t).holding_locks = (st.thr t).holding_locks
  | 0, _, _, _ => ⟨rfl, rfl, rfl, rfl⟩
  | fuel + 1, st, target, t => by
    cases hn : nextTarget (donateStep cur target st) target with
    | none =>
      rw [donate_succ_none cur fuel target st hn]
      exact donateStep_thr_frame cur target st t
    | some nxt =>
      rw [donate_succ_some cur fuel target nxt st hn]
      obtain ⟨a1, a2, a3, a4⟩ := donate_thr_frame cur fuel (donateStep cur target st) nxt t
      obtain ⟨b1, b2, b3, b4⟩ := donateStep_thr_frame cur target st t
      exact ⟨a1.trans b1, a2.trans b2, a3.trans b3, a4.trans b4⟩

theorem donate_cur_prio (cur : Nat) :
    ∀ (fuel : Nat) (st : KState) (target : Nat),
      ((donate cur fuel st target).thr cur).priority = (st.thr cur).priority
  | 0, _, _ => rfl
  | fuel + 1, st, target => by
    cases hn : nextTarget (donateStep cur target st) target with
    | none =>
      rw [donate_succ_none cur fuel target st hn]
      exact donateStep_cur_prio cur target st
    | some nxt =>
      rw [donate_succ_some cur fuel target nxt st hn]
      exact (donate_cur_prio cur fuel _ nxt).trans (donateStep_cur_prio cur target st)

/-- States agreeing on the wait-for structure have the same chains. -/
theorem chainList_congr :
    ∀ (fuel : Nat) (st st' : KState) (target : Nat),
      (∀ t, nextTarget st' t = nextTarget st t) →
      chainList st' fuel target = chainList st fuel target
  | 0, _, _, _, _ => rfl
  | fuel + 1, st, st', target, hn => by
    cases hno : nextTarget st target with
    | none =>
      rw [chainList_succ_none st fuel target hno,
        chainList_succ_none st' fuel target ((hn target).trans hno)]
    | some nxt =>
      rw [chainList_succ_some st fuel target nxt hno,
        chainList_succ_some st' fuel target nxt ((hn target).trans hno),
        chainList_congr fuel st st' nxt hn]

/-- A thread not on the wait-for chain keeps its effective priority
through the donation walk. -/
theorem donate_prio_of_not_mem (cur : Nat) :
    ∀ (fuel : Nat) (st : KState) (target t : Nat),
      t ∉ chainList st fuel target →
      ((donate cur fuel st target).thr t).priority = (st.thr t).priority
  | 0, _, _, _, _ => rfl
  | fuel + 1, st, target, t, hmem => by
    cases hn : nextTarget st target with
    | none =>
      have hn' : nextTarget (donateStep cur target st) target = none :=
        (nextTarget_donateStep cur target st target).trans hn
      rw [donate_succ_none cur fuel target st hn']
      have ht : t ≠ target := by
        rw [chainList_succ_none st fuel target hn] at hmem
        simpa using hmem
      rw [donateStep_thr_other cur target st ht]
    | some nxt =>
      have hn' : nextTarget (donateStep cur target st) target = some nxt :=
        (nextTarget_donateStep cur target st target).trans hn
      rw [donate_succ_some cur fuel target nxt st hn']
      rw [chainList_succ_some st fuel target nxt hn] at hmem
      have ht : t ≠ target := fun h => hmem (h ▸ List.mem_cons_self _ _)
      have htail : t ∉ chainList st fuel nxt := fun h => hmem (List.mem_cons_of_mem _ h)
      have hcong : chainList (donateStep cur target st) fuel nxt = chainList st fuel nxt :=
        chainList_congr fuel st (donateStep cur target st) nxt
          (nextTarget_donateStep cur target st)
      have hrec := donate_prio_of_not_mem cur fuel (donateStep cur target st) nxt t
        (by rw [hcong]; exact htail)
      rw [hrec, donateStep_thr_other cur target st ht]

/-- Every thread on the wait-for chain ends the donation walk with the
maximum of its own and the acquirer's effective priority: bumped to the
acquirer's exactly when it was lower, untouched otherwise. -/
theorem donate_prio_of_mem (cur : Nat) :
    ∀ (fuel : Nat) (st : KState) (target t : Nat),
      t ∈ chainList st fuel target →
      ((donate cur fuel st target).thr t).priority
        = max ((st.thr t).priority) ((st.thr cur).priority)
  | 0, _, _, _, hmem => absurd hmem (List.not_mem_nil _)
  | fuel + 1, st, target, t, hmem => by
    cases hn : nextTarget st target with
    | none =>
      have hn' : nextTarget (donateStep cur target st) target = none :=
        (nextTarget_donateStep cur target st target).trans hn
      rw [donate_succ_none cur fuel target st hn']
      rw [chainList_succ_none st fuel target hn] at hmem
      have ht : t = target := by simpa using hmem
      subst ht
      rw [donateStep_thr_target]
    | some nxt =>
      have hn' : nextTarget (donateStep cur target st) target = some nxt :=
        (nextTarget_donateStep cur target st target).trans hn
      rw [donate_succ_some cur fuel target nxt st hn']
      rw [chainList_succ_some st fuel target nxt hn] at hmem
      have hcong : chainList (donateStep cur target st) fuel nxt = chainList st fuel nxt :=
        chainList_congr fuel st (donateStep cur target st) nxt
          (nextTarget_donateStep cur target st)
      by_cases htail : t ∈ chainList st fuel nxt
      · have hIH := donate_prio_of_mem cur fuel (donateStep cur target st) nxt t
          (by rw [hcong]; exact htail)
        rw [hIH, donateStep_cur_prio]
        by_cases hteq : t = target
        · subst hteq
          rw [show ((donateStep cur t st).thr t).priority
              = max ((st.thr t).priority) ((st.thr cur).priority) from by
            rw [donateStep_thr_target]]
          rw [Nat.max_assoc, Nat.max_self]
        · rw [donateStep_thr_other cur target st hteq]
      · have ht : t = target := by
          rcases List.mem_cons.mp hmem with h | h
          · exact h
          · exact absurd h htail
        subst ht
        have hrec := donate_prio_of_not_mem cur fuel (donateStep cur t st) nxt t
          (by rw [hcong]; exact htail)
        rw [hrec, donateStep_thr_target]

/-- C1: a contended `lock_acquire` records `wait_on_lock`, walks the
wait-for chain from the holder, and leaves every thread on the chain
with the maximum of its own and the acquirer's effective priority
(raised to the acquirer's exactly when it was lower), leaves every
other thread's effective priority untouched, never mutates any base
priority, and then blocks the caller on the lock's semaphore. -/
theorem c1_contended_acquire_donates (fuel : Nat) (st : KState) (l h : Nat)
    (hni : st.in_intr = false)
    (hnh : lock_held_by_current_thread st l = false)
    (hph : st.holder l = some h)
    (hv : (st.sems l).value = 0) :
    lock_acquire fuel st l
        = Except.ok (AcquireResult.blocked (blockedAcquireState fuel st l h)) ∧
      (∀ t, ((blockedAcquireState fuel st l h).thr t).original_priority
          = (st.thr t).original_priority) ∧
      (∀ t, t ∈ chainList (acquireWaitState st l) fuel h →
        ((blockedAcquireState fuel st l h).thr t).priority
          = max ((st.thr t).priority) ((st.thr st.running).priority)) ∧
      (∀ t, t ∉ chainList (acquireWaitState st l) fuel h →
        ((blockedAcquireState fuel st l h).thr t).priority = (st.thr t).priority) := by
  have hw1 : ∀ t, ((acquireWaitState st l).thr t).priority = (st.thr t).priority := by
    intro t
    by_cases ht : t = st.running
    · subst ht; simp [acquireWaitState, updFn_self]
    · simp [acquireWaitState, updFn_other ht]
  have hw2 : ∀ t, ((acquireWaitState st l).thr t).original_priority
      = (st.thr t).original_priority := by
    intro t
    by_cases ht : t = st.running
    · subst ht; simp [acquireWaitState, updFn_self]
    · simp [acquireWaitState, updFn_other ht]
  have h2intr : (donate st.running fuel (acquireWaitState st l) h).in_intr = false := by
    rw [donate_in_intr]
    exact hni
  have h2val : ((donate st.running fuel (acquireWaitState st l) h).sems l).value = 0 := by
    rw [donate_sems]
    exact hv
  have hblock : ∀ t,
      ((blockedAcquireState fuel st l h).thr t).priority
          = ((donatedState fuel st l h).thr t).priority ∧
      ((blockedAcquireState fuel st l h).thr t).original_priority
          = ((donatedState fuel st l h).thr t).original_priority := by
    intro t
    unfold blockedAcquireState
    by_cases ht : t = (donatedState fuel st l h).running
    · subst ht; simp [updFn_self]
    · simp [updFn_other ht]
  have hdown : sema_down (donate st.running fuel (acquireWaitState st l) h) l
      = Except.ok (DownResult.blocked (blockedAcquireState fuel st l h)) := by
    unfold sema_down
    rw [if_neg (by simp [h2intr]), if_pos h2val]
    rfl
  refine ⟨?_, ?_, ?_, ?_⟩
  · unfold lock_acquire
    rw [if_neg (by simp [hni]), if_neg (by simp [hnh])]
    simp only [hph, hdown]
  · intro t
    rw [(hblock t).2]
    unfold donatedState
    rw [(donate_thr_frame st.running fuel (acquireWaitState st l) h t).1]
    exact hw2 t
  · intro t hmem
    rw [(hblock t).1]
    unfold donatedState
    rw [donate_prio_of_mem st.running fuel (acquireWaitState st l) h t hmem]
    rw [hw1 t, hw1 st.running]
  · intro t hmem
    rw [(hblock t).1]
    unfold donatedState
    rw [donate_prio_of_not_mem st.running fuel (acquireWaitState st l) h t hmem]
    exact hw1 t

theorem c1_contended_acquire_donates_witness :
    (wstC1.in_intr = false ∧ lock_held_by_current_thread wstC1 2 = false ∧
      wstC1.holder 2 = some 1 ∧ (wstC1.sems 2).value = 0) ∧
      (lock_acquire 5 wstC1 2
          = Except.ok (AcquireResult.blocked (blockedAcquireState 5 wstC1 2 1)) ∧
        (∀ t, ((blockedAcquireState 5 wstC1 2 1).thr t).original_priority
            = (wstC1.thr t).original_priority) ∧
        (∀ t, t ∈ chainList (acquireWaitState wstC1 2) 5 1 →
          ((blockedAcquireState 5 wstC1 2 1).thr t).priority
            = max ((wstC1.thr t).priority) ((wstC1.thr wstC1.running).priority)) ∧
        (∀ t, t ∉ chainList (acquireWaitState wstC1 2) 5 1 →
          ((blockedAcquireState 5 wstC1 2 1).thr t).priority
            = (wstC1.thr t).priority)) ∧
      ((c1Final.thr 1).priority = 3 ∧ (c1Final.thr 0).priority = 3 ∧
        (c1Final.thr 1).original_priority = 2 ∧ (c1Final.thr 0).original_priority = 1 ∧
        c1Final.ready_list = [0, 3]) :=
  ⟨⟨rfl, by decide, by decide, rfl⟩,
    c1_contended_acquire_donates 5 wstC1 2 1 rfl (by decide) (by decide) rfl,
    by decide⟩

/-- C2: after `lock_release (L)` by its holder T, with L removed from
T's held-lock list, T's effective priority equals the maximum of T's
base priority and, over every lock still held by T, the maximum
effective priority of that lock's semaphore waiters — the priority
invariant is restored exactly, with no residue from earlier donations.
(The side condition that T itself waits on none of its own held locks
holds in every execution, since a waiter is BLOCKED.) -/
theorem c2_release_restores_priority (st : KState) (l : Nat)
    (hheld : st.holder l = some st.running)
    (hnw : ∀ l' ∈ ((st.thr st.running).holding_locks).erase l,
        st.running ∉ (st.sems l').waiters) :
    ∃ st', lock_release st l = Except.ok st' ∧
      (st'.thr st.running).priority
        = specReleasePriority st st.running (((st.thr st.running).holding_locks).erase l) ∧
      (st'.thr st.running).holding_locks
        = ((st.thr st.running).holding_locks).erase l := by
  have hb : lock_held_by_current_thread st l = true := by
    simp [lock_held_by_current_thread, hheld]
  set cur := st.running with hcur
  set held1 := ((st.thr cur).holding_locks).erase l with hheld1
  set stA : KState := { st with
    thr := updFn st.thr cur
      { st.thr cur with
        holding_locks := held1,
        priority := (st.thr cur).original_priority } } with hstA
  set stB := releaseRecompute cur held1 stA with hstB
  set stC : KState := { stB with holder := updFn stB.holder l none } with hstC
  set r := sema_up stC l with hr
  have heq : lock_release st l
      = Except.ok (if should_preempt r.st then thread_yield r.st else r.st) := by
    unfold lock_release
    rw [if_neg (by simp [hb])]
  have hAcur : stA.thr cur
      = { st.thr cur with
          holding_locks := held1,
          priority := (st.thr cur).original_priority } := by
    rw [hstA]
    exact updFn_self _ _ _
  refine ⟨_, heq, ?_, ?_⟩
  · have hfin : ((if should_preempt r.st then thread_yield r.st else r.st).thr cur).priority
        = (stB.thr cur).priority := by
      by_cases hp : should_preempt r.st
      · rw [if_pos hp, thread_yield_prio, hr, sema_up_prio]
      · rw [if_neg hp, hr, sema_up_prio]
    rw [hfin]
    have hmain : (stB.thr cur).priority
        = held1.foldl
            (fun p l' => ((stA.sems l').waiters).foldl
              (fun m w => max m ((stA.thr w).priority)) p)
            ((stA.thr cur).priority) :=
      releaseRecompute_priority cur held1 stA
        (by intro l' hl' hmem; exact hnw l' hl' hmem)
    rw [hmain]
    have hstart : (stA.thr cur).priority = (st.thr cur).original_priority := by
      rw [hAcur]
    rw [hstart]
    apply foldl_congr_mem
    intro l' hl' p
    show ((st.sems l').waiters).foldl (fun m w => max m ((stA.thr w).priority)) p
      = ((st.sems l').waiters).foldl (fun m w => max m ((st.thr w).priority)) p
    apply foldl_congr_mem
    intro w hw q
    have hwne : w ≠ cur := fun hE => hnw l' hl' (hE ▸ hw)
    rw [show stA.thr w = st.thr w from by rw [hstA]; exact updFn_other hwne]
  · have hfinh : ((if should_preempt r.st then thread_yield r.st else r.st).thr cur).holding_locks
        = (stB.thr cur).holding_locks := by
      by_cases hp : should_preempt r.st
      · rw [if_pos hp, thread_yield_holding, hr, sema_up_holding]
      · rw [if_neg hp, hr, sema_up_holding]
    rw [hfinh]
    have h1 : (stB.thr cur).holding_locks = (stA.thr cur).holding_locks :=
      releaseRecompute_holding cur held1 stA cur
    rw [h1, hAcur]

theorem c2_release_restores_priority_witness :
    wstC2.holder 2 = some wstC2.running ∧
      (∃ st', lock_release wstC2 2 = Except.ok st' ∧
        (st'.thr wstC2.running).priority
          = specReleasePriority wstC2 wstC2.running
              (((wstC2.thr wstC2.running).holding_locks).erase 2) ∧
        (st'.thr wstC2.running).holding_locks
          = ((wstC2.thr wstC2.running).holding_locks).erase 2) :=
  ⟨by decide,
    c2_release_restores_priority wstC2 2 (by decide) (by decide)⟩

/-- C9: precondition violations are fatal assertions, never error
values: `sema_down` from interrupt context, `lock_acquire` of a lock
already held by the caller, and `lock_release` of a lock not held by
the caller each halt with the failed assertion's diagnostic instead of
returning normally. -/
theorem c9_assertions_fatal (st : KState) (s l fuel : Nat) :
    (st.in_intr = true → sema_down st s = Except.error "ASSERT (!intr_context ())") ∧
    (st.in_intr = false → lock_held_by_current_thread st l = true →
      lock_acquire fuel st l
        = Except.error "ASSERT (!lock_held_by_current_thread (lock))") ∧
    (lock_held_by_current_thread st l = false →
      lock_release st l
        = Except.error "ASSERT (lock_held_by_current_thread (lock))") := by
  refine ⟨?_, ?_, ?_⟩
  · intro h
    simp [sema_down, h]
  · intro h1 h2
    simp [lock_acquire, h1, h2]
  · intro h
    simp [lock_release, h]

theorem c9_assertions_fatal_witness :
    sema_down { wstC9 with in_intr := true } 0
        = Except.error "ASSERT (!intr_context ())" ∧
      lock_acquire 4 wstC9 1
        = Except.error "ASSERT (!lock_held_by_current_thread (lock))" ∧
      lock_release wstC9 2
        = Except.error "ASSERT (lock_held_by_current_thread (lock))" :=
  ⟨(c9_assertions_fatal { wstC9 with in_intr := true } 0 1 4).1 rfl,
    (c9_assertions_fatal wstC9 0 1 4).2.1 rfl (by decide),
    (c9_assertions_fatal wstC9 0 2 4).2.2 (by decide)⟩

/-- C10: `lock_try_acquire` never blocks and performs no
interrupt-context check (flipping `in_intr` changes nothing but that
flag in its output); on an unavailable lock (semaphore value 0) it
returns `false` with the whole state unchanged; on success it only
decrements the semaphore value and records the holder — it never
touches `wait_on_lock`, priorities, or the caller's held-lock list. -/
theorem c10_lock_try_acquire (st : KState) (l : Nat)
    (hheld : lock_held_by_current_thread st l = false) :
    (lock_try_acquire { st with in_intr := true } l
        = (lock_try_acquire st l).map (fun r => ({ r.1 with in_intr := true }, r.2))) ∧
    ((st.sems l).value = 0 → lock_try_acquire st l = Except.ok (st, false)) ∧
    (0 < (st.sems l).value →
      lock_try_acquire st l = Except.ok
        ({ st with
            sems := updFn st.sems l { st.sems l with value := (st.sems l).value - 1 },
            holder := updFn st.holder l (some st.running) }, true)) := by
  have hheld' : lock_held_by_current_thread { st with in_intr := true } l = false := hheld
  refine ⟨?_, ?_, ?_⟩
  · by_cases hv : 0 < (st.sems l).value
    · simp [lock_try_acquire, sema_try_down, hheld, hheld', hv, Except.map]
    · simp [lock_try_acquire, sema_try_down, hheld, hheld', hv, Except.map]
  · intro hv
    simp [lock_try_acquire, sema_try_down, hheld, hv]
  · intro hv
    simp [lock_try_acquire, sema_try_down, hheld, hv]

theorem c10_lock_try_acquire_witness :
    (lock_try_acquire { wstC10 with in_intr := true } 0
        = (lock_try_acquire wstC10 0).map (fun r => ({ r.1 with in_intr := true }, r.2))) ∧
      lock_try_acquire wstC10 1 = Except.ok (wstC10, false) ∧
      lock_try_acquire wstC10 0 = Except.ok
        ({ wstC10 with
            sems := updFn wstC10.sems 0 { wstC10.sems 0 with value := 0 },
            holder := updFn wstC10.holder 0 (some 0) }, true) :=
  ⟨(c10_lock_try_acquire wstC10 0 (by decide)).1,
    (c10_lock_try_acquire wstC10 1 (by decide)).2.1 (by decide),
    (c10_lock_try_acquire wstC10 0 (by decide)).2.2 (by decide)⟩

end Pintos